import Mathlib

/-!
Shallow embedding of the tic-tac-toe rule engine from `src/src/game.rs` and
the derive macros from `src/dimension_macro_derive/src/lib.rs`.

Modelling conventions:
 * Rust `f32` screen coordinates are modelled as `ℚ`.  The coordinate mapper
   performs no arithmetic on its input, only comparisons against the exactly
   representable constants ±125.0 and ±375.0, so comparisons over `ℚ` agree
   with the `f32` comparisons on every representable input.
 * `HashMap<Cell, Option<Mark>>` is modelled as the function `Cell → Option Mark`
   giving each cell's mark.  `Game::set` only ever inserts `Some(mark)` values,
   so a key is present in the map exactly when the function returns `some`,
   and `marks.len()` is the number of cells mapped to `some`.
 * Rust `i8` weights are modelled as `Int`: each cell lies on at most 4 lines
   and each line contributes at most 22×|scale| with |scale| = 1, so |weight|
   never exceeds 88 and `i8` arithmetic never wraps.
 * The `expect` calls (panics) are modelled with `Option`.
-/

namespace TTT

/-- `Row` from game.rs (variants in declaration order: Bottom, Middle, Top). -/
inductive Row
  | Bottom | Middle | Top
  deriving DecidableEq, Fintype

/-- `Column` from game.rs (variants in declaration order: Left, Middle, Right). -/
inductive Column
  | Left | Middle | Right
  deriving DecidableEq, Fintype

/-- `Cell` from game.rs, in declaration order (row-major, top to bottom). -/
inductive Cell
  | TopLeft | TopMiddle | TopRight
  | MiddleLeft | MiddleMiddle | MiddleRight
  | BottomLeft | BottomMiddle | BottomRight
  deriving DecidableEq, Fintype

/-- `Line` from game.rs, in declaration order. -/
inductive Line
  | BottomRow | MiddleRow | TopRow
  | LeftColumn | MiddleColumn | RightColumn
  | UpDiagonal | DownDiagonal
  deriving DecidableEq, Fintype

/-- `Mark` from game.rs. -/
inductive Mark
  | X | O
  deriving DecidableEq, Fintype

/-- `position()` generated by the `Dimension` derive macro: first variant ↦ -1,
second ↦ 0, third ↦ 1. -/
def Row.position : Row → Int
  | .Bottom => -1
  | .Middle => 0
  | .Top => 1

/-- `position()` generated by the `Dimension` derive macro for `Column`. -/
def Column.position : Column → Int
  | .Left => -1
  | .Middle => 0
  | .Right => 1

/-- `Cell::row` from game.rs. -/
def Cell.row : Cell → Row
  | .TopLeft => .Top
  | .TopMiddle => .Top
  | .TopRight => .Top
  | .MiddleLeft => .Middle
  | .MiddleMiddle => .Middle
  | .MiddleRight => .Middle
  | .BottomLeft => .Bottom
  | .BottomMiddle => .Bottom
  | .BottomRight => .Bottom

/-- `Cell::column` from game.rs. -/
def Cell.column : Cell → Column
  | .TopLeft => .Left
  | .TopMiddle => .Middle
  | .TopRight => .Right
  | .MiddleLeft => .Left
  | .MiddleMiddle => .Middle
  | .MiddleRight => .Right
  | .BottomLeft => .Left
  | .BottomMiddle => .Middle
  | .BottomRight => .Right

/-- `Cell::from(row, column)` from game.rs (`from` is a Lean keyword, hence `ofRC`). -/
def Cell.ofRC : Row → Column → Cell
  | .Bottom, .Left => .BottomLeft
  | .Bottom, .Middle => .BottomMiddle
  | .Bottom, .Right => .BottomRight
  | .Middle, .Left => .MiddleLeft
  | .Middle, .Middle => .MiddleMiddle
  | .Middle, .Right => .MiddleRight
  | .Top, .Left => .TopLeft
  | .Top, .Middle => .TopMiddle
  | .Top, .Right => .TopRight

/-- `Cell::is_corner` from game.rs. -/
def Cell.is_corner (c : Cell) : Bool :=
  c == .TopLeft || c == .TopRight || c == .BottomLeft || c == .BottomRight

/-- `Cell::variants()` generated by the `Enumerated` derive macro:
the variants in declaration order. -/
def cellVariants : List Cell :=
  [.TopLeft, .TopMiddle, .TopRight,
   .MiddleLeft, .MiddleMiddle, .MiddleRight,
   .BottomLeft, .BottomMiddle, .BottomRight]

/-- `Line::variants()` generated by the `Enumerated` derive macro. -/
def lineVariants : List Line :=
  [.BottomRow, .MiddleRow, .TopRow,
   .LeftColumn, .MiddleColumn, .RightColumn,
   .UpDiagonal, .DownDiagonal]

/-- `Line::cells` from game.rs, as the ordered triple of the `[Cell; 3]` array. -/
def Line.cells : Line → Cell × Cell × Cell
  | .BottomRow => (.BottomLeft, .BottomMiddle, .BottomRight)
  | .MiddleRow => (.MiddleLeft, .MiddleMiddle, .MiddleRight)
  | .TopRow => (.TopLeft, .TopMiddle, .TopRight)
  | .LeftColumn => (.TopLeft, .MiddleLeft, .BottomLeft)
  | .MiddleColumn => (.TopMiddle, .MiddleMiddle, .BottomMiddle)
  | .RightColumn => (.TopRight, .MiddleRight, .BottomRight)
  | .UpDiagonal => (.BottomLeft, .MiddleMiddle, .TopRight)
  | .DownDiagonal => (.TopLeft, .MiddleMiddle, .BottomRight)

/-- `Line::cells` as a list, in the array's order. -/
def Line.cellList (l : Line) : List Cell :=
  [l.cells.1, l.cells.2.1, l.cells.2.2]

/-! ### The board (`mod game` in game.rs) -/

/-- The `marks: HashMap<Cell, Option<Mark>>` field, as the cell-to-mark view:
`some m` exactly when the map holds `Some(m)` at that key (only `Some` values
are ever inserted). -/
def Marks := Cell → Option Mark

/-- `Game::WINNING_ARRANGEMENTS` from game.rs: the 8 cell predicates paired
with their `Line`, in array order.  The predicates take the cell component of
a map entry (the mark component is ignored by every arrangement). -/
def WINNING_ARRANGEMENTS : List ((Cell → Bool) × Line) :=
  [(fun c => c.row == Row.Top, .TopRow),
   (fun c => c.row == Row.Middle, .MiddleRow),
   (fun c => c.row == Row.Bottom, .BottomRow),
   (fun c => c.column == Column.Left, .LeftColumn),
   (fun c => c.column == Column.Middle, .MiddleColumn),
   (fun c => c.column == Column.Right, .RightColumn),
   (fun c => c.column.position == c.row.position, .UpDiagonal),
   (fun c => c.column.position == -c.row.position, .DownDiagonal)]

/-- The body of `Game::determine_winner`'s loop for one arrangement: collect
the marks of the occupied cells selected by the predicate (`filter` +
`flat_map`); if there are 3 of them and they are all identical
(`unique_marks.len() == 1`), return the common mark.  The HashMap iteration
order is immaterial here because only the multiset of collected marks is
inspected. -/
def checkLine (marks : Marks) (pred : Cell → Bool) : Option Mark :=
  let ms := (cellVariants.filter pred).filterMap marks
  if ms.length = 3 ∧ ms.dedup.length = 1 then ms.head? else none

/-- `Game::determine_winner` from game.rs: return `(mark, line)` for the first
arrangement (in `WINNING_ARRANGEMENTS` order) whose 3 cells hold 3 identical
marks, else `None`. -/
def determine_winner (marks : Marks) : Option (Mark × Line) :=
  WINNING_ARRANGEMENTS.findSome? fun pl => (checkLine marks pl.1).map fun m => (m, pl.2)

/-- `marks.len()`: the number of keys in the map, i.e. of occupied cells. -/
def occupiedCount (marks : Marks) : Nat :=
  (cellVariants.filterMap marks).length

/-- `Game` from game.rs: private fields `marks`, `winner`, `over`. -/
structure Game where
  marks : Marks
  winner : Option (Mark × Line)
  over : Bool

/-- `impl Default for Game` (derived): empty map, `None`, `false`. -/
def Game.default : Game :=
  { marks := fun _ => none, winner := none, over := false }

/-- `Game::get` from game.rs. -/
def Game.get (g : Game) (c : Cell) : Option Mark :=
  g.marks c

/-- `Game::set` from game.rs: insert `Some(mark)` at `cell` (overwriting any
existing entry, as `HashMap::insert` does), then recompute `winner` and
`over = winner.is_some() || marks.len() == 9`. -/
def Game.set (g : Game) (c : Cell) (m : Mark) : Game :=
  let marks' : Marks := fun x => if x = c then some m else g.marks x
  let w := determine_winner marks'
  { marks := marks', winner := w, over := w.isSome || occupiedCount marks' == 9 }

/-! ### Coordinate mapper (`Dimension` derive macro + `Cell::hit`) -/

/-- `HALFSIZE = GRID_SPACING / 2.0 = 125.0` from dimension_macro_derive. -/
def HALFSIZE : ℚ := 125

/-- `range()` generated by the `Dimension` derive macro for `Row`: first
variant ↦ (-3·HALFSIZE, -HALFSIZE), second ↦ (-HALFSIZE, HALFSIZE),
third ↦ (HALFSIZE, 3·HALFSIZE). -/
def Row.range : Row → ℚ × ℚ
  | .Bottom => (-(3 * HALFSIZE), -HALFSIZE)
  | .Middle => (-HALFSIZE, HALFSIZE)
  | .Top => (HALFSIZE, 3 * HALFSIZE)

/-- `range()` generated by the `Dimension` derive macro for `Column`. -/
def Column.range : Column → ℚ × ℚ
  | .Left => (-(3 * HALFSIZE), -HALFSIZE)
  | .Middle => (-HALFSIZE, HALFSIZE)
  | .Right => (HALFSIZE, 3 * HALFSIZE)

/-- `in_range()` generated by the `Dimension` derive macro:
`min <= value && value < max`. -/
def Row.in_range (r : Row) (v : ℚ) : Bool :=
  decide (r.range.1 ≤ v ∧ v < r.range.2)

/-- `in_range()` generated by the `Dimension` derive macro for `Column`. -/
def Column.in_range (c : Column) (v : ℚ) : Bool :=
  decide (c.range.1 ≤ v ∧ v < c.range.2)

/-- `containing()` generated by the `Dimension` derive macro: try the three
variants in declaration order. -/
def Row.containing (v : ℚ) : Option Row :=
  if Row.Bottom.in_range v then some .Bottom
  else if Row.Middle.in_range v then some .Middle
  else if Row.Top.in_range v then some .Top
  else none

/-- `containing()` generated by the `Dimension` derive macro for `Column`. -/
def Column.containing (v : ℚ) : Option Column :=
  if Column.Left.in_range v then some .Left
  else if Column.Middle.in_range v then some .Middle
  else if Column.Right.in_range v then some .Right
  else none

/-- `Cell::hit(pos)` from game.rs: `Row::containing(pos.y)` and
`Column::containing(pos.x)`, `None` if either misses. -/
def Cell.hit (x y : ℚ) : Option Cell :=
  match Row.containing y, Column.containing x with
  | some row, some col => some (Cell.ofRC row col)
  | _, _ => none

/-! ### Computer move selector (`generate_computer_input` in game.rs) -/

/-- The `index` helper inside `generate_computer_input`. -/
def Cell.index : Cell → Nat
  | .TopLeft => 0
  | .TopMiddle => 1
  | .TopRight => 2
  | .MiddleLeft => 3
  | .MiddleMiddle => 4
  | .MiddleRight => 5
  | .BottomLeft => 6
  | .BottomMiddle => 7
  | .BottomRight => 8

/-- `weights[index(cell)] += delta`. -/
def bump (ws : List Int) (i : Nat) (delta : Int) : List Int :=
  ws.set i (ws.getD i 0 + delta)

/-- Case (1) of `generate_computer_input`: +20×scale for the one empty cell of
a line whose other two cells hold the computer's mark.  The three Rust match
arms have mutually exclusive patterns, so a failed guard falls through to the
final `_ => {}` arm. -/
def case1 (computer : Mark) (scale : Int) (c1 c2 c3 : Cell)
    (m1 m2 m3 : Option Mark) (ws : List Int) : List Int :=
  match m1, m2, m3 with
  | some a, some b, none => if a = b ∧ b = computer then bump ws c3.index (20 * scale) else ws
  | some a, none, some b => if a = b ∧ b = computer then bump ws c2.index (20 * scale) else ws
  | none, some a, some b => if a = b ∧ b = computer then bump ws c1.index (20 * scale) else ws
  | _, _, _ => ws

/-- Case (2) of `generate_computer_input`: +10×scale for the one empty cell of
a line whose other two cells hold the opponent's mark. -/
def case2 (computer : Mark) (scale : Int) (c1 c2 c3 : Cell)
    (m1 m2 m3 : Option Mark) (ws : List Int) : List Int :=
  match m1, m2, m3 with
  | some a, some b, none => if a = b ∧ b ≠ computer then bump ws c3.index (10 * scale) else ws
  | some a, none, some b => if a = b ∧ b ≠ computer then bump ws c2.index (10 * scale) else ws
  | none, some a, some b => if a = b ∧ b ≠ computer then bump ws c1.index (10 * scale) else ws
  | _, _, _ => ws

/-- Case (3) of `generate_computer_input`: +2×scale when the middle element of
the line's cell triple is the empty middle-middle cell. -/
def case3 (scale : Int) (c2 : Cell) (m2 : Option Mark) (ws : List Int) : List Int :=
  match m2 with
  | none => if c2 = Cell.MiddleMiddle then bump ws c2.index (2 * scale) else ws
  | some _ => ws

/-- Case (4) of `generate_computer_input` with Rust fall-through semantics:
if the first and third cells of the triple are both empty and the first is a
corner, both get +1×scale; otherwise an empty corner first cell, and failing
that an empty corner third cell, gets +1×scale. -/
def case4 (scale : Int) (c1 c3 : Cell) (m1 m3 : Option Mark) (ws : List Int) : List Int :=
  match m1, m3 with
  | none, none =>
      if c1.is_corner then bump (bump ws c1.index (1 * scale)) c3.index (1 * scale)
      else if c3.is_corner then bump ws c3.index (1 * scale)
      else ws
  | none, some _ => if c1.is_corner then bump ws c1.index (1 * scale) else ws
  | some _, none => if c3.is_corner then bump ws c3.index (1 * scale) else ws
  | some _, some _ => ws

/-- The body of the `Line::variants().iter().for_each` loop: apply cases
(1)–(4) of `generate_computer_input` for one line. -/
def applyLine (b : Marks) (computer : Mark) (scale : Int) (ws : List Int) (l : Line) : List Int :=
  let c1 := l.cells.1
  let c2 := l.cells.2.1
  let c3 := l.cells.2.2
  case4 scale c1 c3 (b c1) (b c3)
    (case3 scale c2 (b c2)
      (case2 computer scale c1 c2 c3 (b c1) (b c2) (b c3)
        (case1 computer scale c1 c2 c3 (b c1) (b c2) (b c3) ws)))

/-- The full weight pass of `generate_computer_input`: start from
`[0; 9]` and fold the per-line update over `Line::variants()`. -/
def computeWeights (b : Marks) (computer : Mark) (scale : Int) : List Int :=
  lineVariants.foldl (applyLine b computer scale) (List.replicate 9 0)

/-- One step of Rust's `Iterator::max_by` fold: keep the accumulator only when
it compares strictly greater, so equal elements are replaced and the LAST
maximum survives. -/
def maxStep (acc y : Nat × Int) : Nat × Int :=
  if acc.2 > y.2 then acc else y

/-- Rust's `Iterator::max_by` over an `(index, weight)` list: `None` on the
empty list, else the last maximal element. -/
def maxByLast : List (Nat × Int) → Option (Nat × Int)
  | [] => none
  | x :: xs => some (xs.foldl maxStep x)

/-- `weights.iter().enumerate().filter(...)` from `generate_computer_input`:
the `(index, weight)` pairs whose cell (`Cell::variants()[index]`) is empty. -/
def candidates (b : Marks) (computer : Mark) (scale : Int) : List (Nat × Int) :=
  (computeWeights b computer scale).enum.filter
    fun iw => (b (cellVariants.getD iw.1 Cell.MiddleMiddle)).isNone

/-- `generate_computer_input` from game.rs, parametrised by the
difficulty-derived `scale` (Hard = 1, Easy = -1, Medium = ±1 chosen at
random).  The `expect("unable to find max weight")` panic is modelled by
`none`. -/
def generate_computer_input (b : Marks) (computer : Mark) (scale : Int) : Option Cell :=
  (maxByLast (candidates b computer scale)).map
    fun iw => cellVariants.getD iw.1 Cell.MiddleMiddle

/-! ### Turn controller (`capture_input` in game.rs) -/

/-- `GameState` from game.rs. -/
inductive GameState
  | GameNotInProgress | XTurn | OTurn | GameOver
  deriving DecidableEq, Fintype

/-- The active mark in a turn state: `start_x_turn` / `start_o_turn` set
`current_player` on entering `XTurn` / `OTurn`.  The value in the other two
states is never consulted by `capture_input` (a move there is `unreachable!`). -/
def markOf : GameState → Mark
  | .OTurn => .O
  | _ => .X

/-- The turn-toggling match at the end of `capture_input`.  The `GameOver` and
`GameNotInProgress` arms are `unreachable!` panics in the source; `capture_input`
is only scheduled in `XTurn`/`OTurn`, so this function is only applied there. -/
def toggle : GameState → GameState
  | .XTurn => .OTurn
  | .OTurn => .XTurn
  | s => s

/-- The occupied-cell guard of `capture_input`: `game.get(cell)` is checked and
an occupied cell only logs a warning, leaving the game untouched; an empty
cell is `set`. -/
def tryMove (g : Game) (c : Cell) (m : Mark) : Game :=
  match g.get c with
  | some _ => g
  | none => g.set c m

/-- One frame of `capture_input` in state `s` (one of `XTurn`/`OTurn`) with a
resolved input (`none`: the click/tap missed the board or there was no input):
return immediately when the game is over, ignore misses and occupied cells,
otherwise `set` the cell with the current player's mark and transition to
`GameOver` or to the opposite turn. -/
def capture_input_step (s : GameState) (g : Game) (input : Option Cell) : GameState × Game :=
  if g.over then (s, g)
  else
    match input with
    | none => (s, g)
    | some cell =>
      match g.get cell with
      | some _ => (s, g)
      | none =>
        let g' := g.set cell (markOf s)
        if g'.over then (.GameOver, g') else (toggle s, g')

/-! ### Boards and helper definitions used by the claims -/

/-- The empty board. -/
def emptyBoard : Marks := fun _ => none

/-- A board produced by `set`ting one mark on each of the 3 cells of a line
(and nothing else), starting from the default (empty) game. -/
def setLine (l : Line) (m : Mark) : Game :=
  ((Game.default.set l.cells.1 m).set l.cells.2.1 m).set l.cells.2.2 m

/-- The contribution of case (3) of `generate_computer_input` (the
`weights[index(cell)] += 2 * scale` statement guarded by
`cell == Cell::MiddleMiddle`) for one line: 2×scale when the middle element
of the line's cell triple is the unoccupied center, else 0. -/
def case3Delta (b : Marks) (scale : Int) (l : Line) : Int :=
  match b l.cells.2.1 with
  | none => if l.cells.2.1 = Cell.MiddleMiddle then 2 * scale else 0
  | some _ => 0

/-- The total contribution of the center-cell rule (case 3) over all 8 lines
of one invocation of `generate_computer_input`. -/
def centerRuleTotal (b : Marks) (scale : Int) : Int :=
  (lineVariants.map (case3Delta b scale)).sum

/-- A board holding only an O in the center (used to exhibit a weight tie
among the four corners). -/
def oCenterBoard : Marks :=
  fun c => if c = Cell.MiddleMiddle then some Mark.O else none

/-- The board `[X,X,_, _,O,_, _,_,_]` of the spec's Hard-difficulty test. -/
def c7Board : Marks :=
  fun c =>
    if c = Cell.TopLeft ∨ c = Cell.TopMiddle then some Mark.X
    else if c = Cell.MiddleMiddle then some Mark.O else none

/-- Membership of a coordinate in one of the three half-open intervals
[-1.5G, -0.5G), [-0.5G, 0.5G), [0.5G, 1.5G) with G = 250, as the spec
describes the coordinate mapper's per-axis partition. -/
def inThreeIntervals (v : ℚ) : Prop :=
  (-375 ≤ v ∧ v < -125) ∨ (-125 ≤ v ∧ v < 125) ∨ (125 ≤ v ∧ v < 375)

/-- The x coordinate of a cell's geometric center: the cell spans
`column.range()`, an interval of width 250 centered at 250·position. -/
def centerX (c : Cell) : ℚ := 250 * c.column.position

/-- The y coordinate of a cell's geometric center. -/
def centerY (c : Cell) : ℚ := 250 * c.row.position

/-! ### Shared lemmas -/

lemma row_containing_spec (v : ℚ) :
    Row.containing v = if -375 ≤ v ∧ v < -125 then some Row.Bottom
      else if -125 ≤ v ∧ v < 125 then some Row.Middle
      else if 125 ≤ v ∧ v < 375 then some Row.Top
      else none := by
  simp only [Row.containing, Row.in_range, Row.range, HALFSIZE]
  norm_num

lemma col_containing_spec (v : ℚ) :
    Column.containing v = if -375 ≤ v ∧ v < -125 then some Column.Left
      else if -125 ≤ v ∧ v < 125 then some Column.Middle
      else if 125 ≤ v ∧ v < 375 then some Column.Right
      else none := by
  simp only [Column.containing, Column.in_range, Column.range, HALFSIZE]
  norm_num

lemma row_containing_isSome (v : ℚ) :
    (Row.containing v).isSome = true ↔ inThreeIntervals v := by
  rw [row_containing_spec]
  unfold inThreeIntervals
  split_ifs with h1 h2 h3
  · exact iff_of_true rfl (Or.inl h1)
  · exact iff_of_true rfl (Or.inr (Or.inl h2))
  · exact iff_of_true rfl (Or.inr (Or.inr h3))
  · refine iff_of_false (by simp) ?_
    rintro (h | h | h)
    · exact h1 h
    · exact h2 h
    · exact h3 h

lemma col_containing_isSome (v : ℚ) :
    (Column.containing v).isSome = true ↔ inThreeIntervals v := by
  rw [col_containing_spec]
  unfold inThreeIntervals
  split_ifs with h1 h2 h3
  · exact iff_of_true rfl (Or.inl h1)
  · exact iff_of_true rfl (Or.inr (Or.inl h2))
  · exact iff_of_true rfl (Or.inr (Or.inr h3))
  · refine iff_of_false (by simp) ?_
    rintro (h | h | h)
    · exact h1 h
    · exact h2 h
    · exact h3 h

lemma hit_isSome (x y : ℚ) :
    (Cell.hit x y).isSome = ((Row.containing y).isSome && (Column.containing x).isSome) := by
  cases h1 : Row.containing y <;> cases h2 : Column.containing x <;> simp [Cell.hit, h1, h2]

lemma rowCont_neg250 : Row.containing (-250) = some Row.Bottom := by
  norm_num [Row.containing, Row.in_range, Row.range, HALFSIZE]

lemma rowCont_0 : Row.containing 0 = some Row.Middle := by
  norm_num [Row.containing, Row.in_range, Row.range, HALFSIZE]

lemma rowCont_250 : Row.containing 250 = some Row.Top := by
  norm_num [Row.containing, Row.in_range, Row.range, HALFSIZE]

lemma colCont_neg250 : Column.containing (-250) = some Column.Left := by
  norm_num [Column.containing, Column.in_range, Column.range, HALFSIZE]

lemma colCont_0 : Column.containing 0 = some Column.Middle := by
  norm_num [Column.containing, Column.in_range, Column.range, HALFSIZE]

lemma colCont_250 : Column.containing 250 = some Column.Right := by
  norm_num [Column.containing, Column.in_range, Column.range, HALFSIZE]

lemma findSome?_of_prefix_none {α β : Type} (f : α → Option β) :
    ∀ (l : List α) (k : Nat) (a : α) (v : β),
      l[k]? = some a →
      ((l.take k).all fun x => (f x).isNone) = true →
      f a = some v →
      l.findSome? f = some v := by
  intro l
  induction l with
  | nil => intro k a v h _ _; simp at h
  | cons x xs ih =>
    intro k a v hget htake hfa
    cases k with
    | zero =>
      simp at hget
      subst hget
      simp [List.findSome?_cons, hfa]
    | succ k =>
      simp at hget
      rw [List.take_succ_cons, List.all_cons, Bool.and_eq_true] at htake
      have hx : f x = none := Option.isNone_iff_eq_none.mp htake.1
      rw [List.findSome?_cons, hx]
      exact ih k a v hget htake.2 hfa

lemma foldl_maxStep_spec :
    ∀ (l : List (Nat × Int)) (acc : Nat × Int),
      (∀ y ∈ l, acc.1 < y.1) →
      l.Pairwise (fun a b => a.1 < b.1) →
      (l.foldl maxStep acc = acc ∨ l.foldl maxStep acc ∈ l)
      ∧ acc.2 ≤ (l.foldl maxStep acc).2
      ∧ acc.1 ≤ (l.foldl maxStep acc).1
      ∧ (∀ y ∈ l, y.2 ≤ (l.foldl maxStep acc).2)
      ∧ (∀ y ∈ l, (l.foldl maxStep acc).1 < y.1 → y.2 < (l.foldl maxStep acc).2) := by
  intro l
  induction l with
  | nil => intro acc _ _; simp
  | cons x xs ih =>
    intro acc hlt hpw
    rw [List.foldl_cons]
    rcases List.pairwise_cons.mp hpw with ⟨hx, hpw'⟩
    by_cases hgt : acc.2 > x.2
    · have hstep : maxStep acc x = acc := by simp [maxStep, hgt]
      rw [hstep]
      have hlt' : ∀ y ∈ xs, acc.1 < y.1 := fun y hy => hlt y (List.mem_cons_of_mem x hy)
      obtain ⟨hmem, h2, h1, hall, hlast⟩ := ih acc hlt' hpw'
      refine ⟨?_, h2, h1, ?_, ?_⟩
      · rcases hmem with h | h
        · exact Or.inl h
        · exact Or.inr (List.mem_cons_of_mem x h)
      · intro y hy
        rcases List.mem_cons.mp hy with rfl | hy'
        · linarith
        · exact hall y hy'
      · intro y hy hylt
        rcases List.mem_cons.mp hy with rfl | hy'
        · linarith
        · exact hlast y hy' hylt
    · have hstep : maxStep acc x = x := by simp [maxStep, hgt]
      rw [hstep]
      push_neg at hgt
      obtain ⟨hmem, h2, h1, hall, hlast⟩ := ih x hx hpw'
      refine ⟨?_, ?_, ?_, ?_, ?_⟩
      · rcases hmem with h | h
        · exact Or.inr (by rw [h]; exact List.mem_cons_self x xs)
        · exact Or.inr (List.mem_cons_of_mem x h)
      · linarith
      · have hax : acc.1 < x.1 := hlt x (List.mem_cons_self x xs)
        omega
      · intro y hy
        rcases List.mem_cons.mp hy with rfl | hy'
        · exact h2
        · exact hall y hy'
      · intro y hy hylt
        rcases List.mem_cons.mp hy with rfl | hy'
        · rcases hmem with h | h
          · rw [h] at hylt; omega
          · have := hx _ h
            omega
        · exact hlast y hy' hylt

lemma fst_le_of_mem_enumFrom {α : Type} :
    ∀ (l : List α) (n : Nat) (p : Nat × α), p ∈ l.enumFrom n → n ≤ p.1 := by
  intro l
  induction l with
  | nil => intro n p h; simp [List.enumFrom] at h
  | cons x xs ih =>
    intro n p h
    rw [List.enumFrom] at h
    rcases List.mem_cons.mp h with rfl | h'
    · exact Nat.le_refl n
    · exact Nat.le_of_succ_le (ih (n + 1) p h')

lemma pairwise_enumFrom {α : Type} :
    ∀ (l : List α) (n : Nat), (l.enumFrom n).Pairwise (fun a b => a.1 < b.1) := by
  intro l
  induction l with
  | nil => intro n; simp [List.enumFrom]
  | cons x xs ih =>
    intro n
    rw [List.enumFrom]
    refine List.pairwise_cons.mpr ⟨?_, ih (n + 1)⟩
    intro y hy
    have := fst_le_of_mem_enumFrom xs (n + 1) y hy
    omega

lemma pairwise_enum {α : Type} (l : List α) : l.enum.Pairwise (fun a b => a.1 < b.1) :=
  pairwise_enumFrom l 0

lemma pairwise_candidates (b : Marks) (computer : Mark) (scale : Int) :
    (candidates b computer scale).Pairwise (fun a b => a.1 < b.1) :=
  List.Pairwise.sublist (List.filter_sublist _) (pairwise_enum _)

lemma cell_index_lt (c : Cell) : c.index < 9 := by cases c <;> simp [Cell.index]

lemma getD_variants_index (c : Cell) : cellVariants.getD c.index Cell.MiddleMiddle = c := by
  cases c <;> rfl

lemma bump_length (ws : List Int) (i : Nat) (d : Int) : (bump ws i d).length = ws.length := by
  simp [bump]

lemma case1_length (computer : Mark) (scale : Int) (c1 c2 c3 : Cell)
    (m1 m2 m3 : Option Mark) (ws : List Int) :
    (case1 computer scale c1 c2 c3 m1 m2 m3 ws).length = ws.length := by
  unfold case1
  cases m1 <;> cases m2 <;> cases m3 <;> first
    | rfl
    | (split <;> (try split_ifs) <;> simp_all [bump])

lemma case2_length (computer : Mark) (scale : Int) (c1 c2 c3 : Cell)
    (m1 m2 m3 : Option Mark) (ws : List Int) :
    (case2 computer scale c1 c2 c3 m1 m2 m3 ws).length = ws.length := by
  unfold case2
  cases m1 <;> cases m2 <;> cases m3 <;> first
    | rfl
    | (split <;> (try split_ifs) <;> simp_all [bump])

lemma case3_length (scale : Int) (c2 : Cell) (m2 : Option Mark) (ws : List Int) :
    (case3 scale c2 m2 ws).length = ws.length := by
  unfold case3
  cases m2 <;> first
    | rfl
    | (split <;> (try split_ifs) <;> simp_all [bump])

lemma case4_length (scale : Int) (c1 c3 : Cell) (m1 m3 : Option Mark) (ws : List Int) :
    (case4 scale c1 c3 m1 m3 ws).length = ws.length := by
  unfold case4
  cases m1 <;> cases m3 <;> first
    | rfl
    | (split <;> (try split_ifs) <;> simp_all [bump])

lemma applyLine_length (b : Marks) (computer : Mark) (scale : Int) (ws : List Int) (l : Line) :
    (applyLine b computer scale ws l).length = ws.length := by
  unfold applyLine
  rw [case4_length, case3_length, case2_length, case1_length]

lemma computeWeights_length (b : Marks) (computer : Mark) (scale : Int) :
    (computeWeights b computer scale).length = 9 := by
  unfold computeWeights
  have : ∀ (ls : List Line) (ws : List Int),
      (ls.foldl (applyLine b computer scale) ws).length = ws.length := by
    intro ls
    induction ls with
    | nil => intro ws; rfl
    | cons x xs ih => intro ws; rw [List.foldl_cons, ih, applyLine_length]
  rw [this]
  rfl

lemma mem_candidates_of_empty (b : Marks) (computer : Mark) (scale : Int) (c : Cell)
    (hc : b c = none) :
    ∃ w, (c.index, w) ∈ candidates b computer scale := by
  have hlen : c.index < (computeWeights b computer scale).length := by
    rw [computeWeights_length]; exact cell_index_lt c
  refine ⟨(computeWeights b computer scale).get ⟨c.index, hlen⟩, ?_⟩
  apply List.mem_filter.mpr
  constructor
  · apply List.mem_enum_iff_getElem?.mpr
    simp [List.getElem?_eq_getElem hlen]
  · show (b (cellVariants.getD c.index Cell.MiddleMiddle)).isNone = true
    rw [getD_variants_index, hc]
    rfl

/-! ### The claims -/

set_option maxRecDepth 8000 in
/-- Claim C1: for every Line L and every Mark M, a board on which `set` has
placed M on all 3 cells of L and no other cell is occupied satisfies
`winner() == Some((M, L))` and `over() == true`; and `determine_winner`
returns the first fully-matched arrangement in the fixed
`WINNING_ARRANGEMENTS` enumeration order. -/
theorem c1_line_win_first_match :
    (∀ (l : Line) (m : Mark), (setLine l m).winner = some (m, l) ∧ (setLine l m).over = true)
    ∧ (∀ (marks : Marks) (k : Nat) (pl : (Cell → Bool) × Line) (mk : Mark),
        WINNING_ARRANGEMENTS[k]? = some pl →
        ((WINNING_ARRANGEMENTS.take k).all fun q => (checkLine marks q.1).isNone) = true →
        checkLine marks pl.1 = some mk →
        determine_winner marks = some (mk, pl.2)) := by
  constructor
  · decide
  · intro marks k pl mk hget htake hcheck
    unfold determine_winner
    exact findSome?_of_prefix_none _ WINNING_ARRANGEMENTS k pl (mk, pl.2) hget
      (by
        refine List.all_eq_true.mpr ?_
        intro q hq
        have := List.all_eq_true.mp htake q hq
        rw [Option.isNone_iff_eq_none] at this ⊢
        rw [this]
        rfl)
      (by rw [hcheck]; rfl)

/-- Witness for C1: a board with X on the whole top row is decided as a top-row
win by the first arrangement of the enumeration. -/
theorem c1_witness :
    determine_winner (fun c => if c.row == Row.Top then some Mark.X else none)
      = some (Mark.X, Line.TopRow) :=
  c1_line_win_first_match.2
    (fun c => if c.row == Row.Top then some Mark.X else none) 0
    (fun c => c.row == Row.Top, Line.TopRow) Mark.X rfl rfl (by decide)

/-- Claim C2: after every call to `set`, the stored winner equals
`determine_winner` of the full current mapping and
`over = winner.is_some() || occupied_count == 9`; in particular a full board
with no completed line is over with no winner, and a board with fewer than 9
marks and no completed line is not over. -/
theorem c2_set_recomputes_winner_over : ∀ (g : Game) (c : Cell) (m : Mark),
    (g.set c m).winner = determine_winner (g.set c m).marks
    ∧ ((g.set c m).over = ((g.set c m).winner.isSome || occupiedCount (g.set c m).marks == 9))
    ∧ (determine_winner (g.set c m).marks = none →
        (occupiedCount (g.set c m).marks = 9 → (g.set c m).winner = none ∧ (g.set c m).over = true)
        ∧ (occupiedCount (g.set c m).marks < 9 → (g.set c m).over = false)) := by
  intro g c m
  refine ⟨rfl, rfl, ?_⟩
  intro hnone
  constructor
  · intro h9
    constructor
    · exact hnone
    · show ((determine_winner (g.set c m).marks).isSome
          || (occupiedCount (g.set c m).marks == 9)) = true
      rw [hnone, h9]
      rfl
  · intro hlt
    show ((determine_winner (g.set c m).marks).isSome
        || (occupiedCount (g.set c m).marks == 9)) = false
    rw [hnone]
    simp only [Option.isSome_none, Bool.false_or, beq_eq_false_iff_ne, ne_eq]
    omega

/-- Witness for C2: one mark on the empty board leaves the game not over. -/
theorem c2_witness : (Game.default.set Cell.TopLeft Mark.X).over = false :=
  ((c2_set_recomputes_winner_over Game.default Cell.TopLeft Mark.X).2.2
    (by decide)).2 (by decide)

/-- Counterexample to C3 as stated: calling `Game::set` itself on an occupied
cell does NOT leave the mapping unchanged — `HashMap::insert` overwrites.
Setting O on a cell already holding X replaces the X. -/
theorem c3_counterexample :
    ((Game.default.set Cell.TopLeft Mark.X).set Cell.TopLeft Mark.O).get Cell.TopLeft
        = some Mark.O
    ∧ ¬ ((Game.default.set Cell.TopLeft Mark.X).set Cell.TopLeft Mark.O).get Cell.TopLeft
        = (Game.default.set Cell.TopLeft Mark.X).get Cell.TopLeft := by
  decide

/-- Claim C3 (amended): the write-once guarantee lives in the move path, not
in `Game::set`: `capture_input` checks `game.get(cell)` and never calls `set`
on an occupied cell, so a move attempt on an occupied cell leaves the mapping,
winner and over status unchanged. -/
theorem c3_guarded_move_write_once : ∀ (g : Game) (c : Cell) (m mOld : Mark),
    g.get c = some mOld →
    tryMove g c m = g ∧ (tryMove g c m).get c = some mOld
    ∧ (tryMove g c m).winner = g.winner ∧ (tryMove g c m).over = g.over := by
  intro g c m mOld h
  have heq : tryMove g c m = g := by
    unfold tryMove
    rw [h]
  exact ⟨heq, by rw [heq, h], by rw [heq], by rw [heq]⟩

/-- Witness for C3 (amended): attempting to overwrite TopLeft through the
guarded move path changes nothing. -/
theorem c3_witness :
    tryMove (Game.default.set Cell.TopLeft Mark.X) Cell.TopLeft Mark.O
      = Game.default.set Cell.TopLeft Mark.X :=
  (c3_guarded_move_write_once (Game.default.set Cell.TopLeft Mark.X)
    Cell.TopLeft Mark.O Mark.X (by decide)).1

/-- Counterexample to C4 as stated: with only an O in the center, the four
corners tie at the maximum weight 3, the first such cell in enumeration order
is TopLeft (index 0), yet the selector returns BottomRight (index 8). -/
theorem c4_counterexample :
    oCenterBoard Cell.TopLeft = none
    ∧ (computeWeights oCenterBoard Mark.X 1).getD 0 0 = 3
    ∧ (computeWeights oCenterBoard Mark.X 1).getD 8 0 = 3
    ∧ (∀ iw ∈ candidates oCenterBoard Mark.X 1, iw.2 ≤ 3)
    ∧ generate_computer_input oCenterBoard Mark.X 1 = some Cell.BottomRight
    ∧ Cell.BottomRight ≠ Cell.TopLeft := by
  decide

/-- Claim C4 (amended): when several empty cells share the maximum weight, the
selected cell is the LAST such cell in the fixed row-major enumeration order
(Rust's `Iterator::max_by` keeps the later of two equal elements): the chosen
candidate's weight is maximal and every candidate with a strictly larger index
has a strictly smaller weight. -/
theorem c4_tie_break_last : ∀ (b : Marks) (computer : Mark) (scale : Int) (iw : Nat × Int),
    maxByLast (candidates b computer scale) = some iw →
    iw ∈ candidates b computer scale
    ∧ (∀ jw ∈ candidates b computer scale, jw.2 ≤ iw.2)
    ∧ (∀ jw ∈ candidates b computer scale, iw.1 < jw.1 → jw.2 < iw.2)
    ∧ generate_computer_input b computer scale
        = some (cellVariants.getD iw.1 Cell.MiddleMiddle) := by
  intro b computer scale iw hmax
  rcases hcand : candidates b computer scale with _ | ⟨hd, tl⟩
  · rw [hcand] at hmax; exact absurd hmax (by simp [maxByLast])
  · rw [hcand] at hmax
    unfold maxByLast at hmax
    have hiw : tl.foldl maxStep hd = iw := Option.some.inj hmax
    have hpw := pairwise_candidates b computer scale
    rw [hcand] at hpw
    rcases List.pairwise_cons.mp hpw with ⟨hx, hpw'⟩
    obtain ⟨hmem, h2, h1, hall, hlast⟩ := foldl_maxStep_spec tl hd hx hpw'
    rw [hiw] at hmem h2 h1 hall hlast
    refine ⟨?_, ?_, ?_, ?_⟩
    · rcases hmem with h | h
      · rw [h]; exact List.mem_cons_self hd tl
      · exact List.mem_cons_of_mem hd h
    · intro jw hjw
      rcases List.mem_cons.mp hjw with rfl | hjw'
      · exact h2
      · exact hall jw hjw'
    · intro jw hjw hlt
      rcases List.mem_cons.mp hjw with rfl | hjw'
      · rcases hmem with h | h
        · rw [h] at hlt; omega
        · have := hx _ h
          omega
      · exact hlast jw hjw' hlt
    · unfold generate_computer_input
      rw [hcand, show maxByLast (hd :: tl) = some (tl.foldl maxStep hd) from rfl, hiw]
      rfl

/-- Witness for C4 (amended): on the O-center board the fold yields the tied
candidate with the largest index, (8, 3), i.e. BottomRight. -/
theorem c4_witness :
    generate_computer_input oCenterBoard Mark.X 1
      = some (cellVariants.getD 8 Cell.MiddleMiddle) :=
  (c4_tie_break_last oCenterBoard Mark.X 1 (8, 3) (by decide)).2.2.2

/-- Counterexample to C5 as stated: on the empty board (Hard, scale 1) the
center-cell rule contributes 8 to the center's weight, not 2, and the center's
total weight is 8. -/
theorem c5_counterexample :
    centerRuleTotal emptyBoard 1 = 8
    ∧ ¬ centerRuleTotal emptyBoard 1 = 2
    ∧ (computeWeights emptyBoard Mark.X 1).getD Cell.MiddleMiddle.index 0 = 8 := by
  decide

/-- Claim C5 (amended): an empty center cell receives +2×scale from the
center-cell rule once per line whose middle `cells()` element is the center —
the 4 lines through the center — so the rule contributes +8×scale in total per
invocation. -/
theorem c5_center_rule_total : ∀ (b : Marks) (scale : Int),
    b Cell.MiddleMiddle = none →
    centerRuleTotal b scale = 8 * scale := by
  intro b scale h
  unfold centerRuleTotal lineVariants
  cases hb : b Cell.BottomMiddle <;> cases ht : b Cell.TopMiddle <;>
    cases hl : b Cell.MiddleLeft <;> cases hr : b Cell.MiddleRight <;>
    simp [case3Delta, Line.cells, h, hb, ht, hl, hr] <;> ring

/-- Witness for C5 (amended): on the empty board with scale 1 the center rule
totals 8×1. -/
theorem c5_witness : centerRuleTotal emptyBoard 1 = 8 * 1 :=
  c5_center_rule_total emptyBoard 1 rfl

/-- Claim C6: `Cell::hit` returns a cell exactly when both coordinates fall in
one of the three half-open intervals [-1.5G, -0.5G), [-0.5G, 0.5G),
[0.5G, 1.5G) with G = 250, and maps each cell's geometric center to exactly
that cell. -/
theorem c6_coordinate_mapper :
    (∀ x y : ℚ, (Cell.hit x y).isSome = true ↔ (inThreeIntervals x ∧ inThreeIntervals y))
    ∧ (∀ c : Cell, Cell.hit (centerX c) (centerY c) = some c) := by
  constructor
  · intro x y
    rw [hit_isSome, Bool.and_eq_true, row_containing_isSome, col_containing_isSome]
    tauto
  · intro c
    cases c <;>
      simp only [Cell.hit, centerX, centerY, Cell.row, Cell.column,
        Row.position, Column.position] <;>
      norm_num [rowCont_neg250, rowCont_0, rowCont_250,
        colCont_neg250, colCont_0, colCont_250] <;>
      rfl

/-- Claim C7: on Hard difficulty (scale 1) with computer mark X, on the board
`[X,X,_, _,O,_, _,_,_]` the selector returns TopRight (the immediate win). -/
theorem c7_hard_takes_win :
    generate_computer_input c7Board Mark.X 1 = some Cell.TopRight := by
  decide

/-- Claim C8: for every board with at least one empty cell, the computer move
selector returns a currently-empty cell (the `expect` failure branch, modelled
as `none`, is unreachable). -/
theorem c8_returns_empty_cell : ∀ (b : Marks) (computer : Mark) (scale : Int),
    (∃ c, b c = none) →
    ∃ c, generate_computer_input b computer scale = some c ∧ b c = none := by
  intro b computer scale hex
  obtain ⟨c0, hc0⟩ := hex
  obtain ⟨w, hw⟩ := mem_candidates_of_empty b computer scale c0 hc0
  rcases hcand : candidates b computer scale with _ | ⟨hd, tl⟩
  · rw [hcand] at hw; exact absurd hw (List.not_mem_nil _)
  · have hpw := pairwise_candidates b computer scale
    rw [hcand] at hpw
    rcases List.pairwise_cons.mp hpw with ⟨hx, hpw'⟩
    obtain ⟨hmem, _, _, _, _⟩ := foldl_maxStep_spec tl hd hx hpw'
    set r := tl.foldl maxStep hd with hr
    have hrmem : r ∈ candidates b computer scale := by
      rw [hcand]
      rcases hmem with h | h
      · rw [h]; exact List.mem_cons_self hd tl
      · exact List.mem_cons_of_mem hd h
    have hrempty : b (cellVariants.getD r.1 Cell.MiddleMiddle) = none := by
      have := (List.mem_filter.mp hrmem).2
      simpa using this
    refine ⟨cellVariants.getD r.1 Cell.MiddleMiddle, ?_, hrempty⟩
    unfold generate_computer_input
    rw [hcand]
    rfl

/-- Witness for C8: on the empty board the selector returns some empty cell. -/
theorem c8_witness :
    ∃ c, generate_computer_input emptyBoard Mark.X 1 = some c ∧ emptyBoard c = none :=
  c8_returns_empty_cell emptyBoard Mark.X 1 ⟨Cell.TopLeft, rfl⟩

/-- Claim C9: in `XTurn`/`OTurn` with the game not over, an accepted move
(empty cell) leads to `GameOver` when the board is then over and to the
opposite turn otherwise (with the active mark toggling X↔O), while a rejected
input (occupied cell or a miss) changes neither the state nor the board. -/
theorem c9_turn_machine : ∀ (s : GameState) (g : Game) (cell : Cell),
    (s = GameState.XTurn ∨ s = GameState.OTurn) →
    g.over = false →
    ((g.get cell = none →
        capture_input_step s g (some cell)
          = (if (g.set cell (markOf s)).over then GameState.GameOver else toggle s,
             g.set cell (markOf s)))
     ∧ (∀ m, g.get cell = some m → capture_input_step s g (some cell) = (s, g))
     ∧ capture_input_step s g none = (s, g)
     ∧ toggle GameState.XTurn = GameState.OTurn ∧ toggle GameState.OTurn = GameState.XTurn
     ∧ markOf GameState.XTurn = Mark.X ∧ markOf GameState.OTurn = Mark.O) := by
  intro s g cell _ hover
  refine ⟨?_, ?_, ?_, rfl, rfl, rfl, rfl⟩
  · intro hempty
    unfold capture_input_step
    rw [hover]
    simp only [Bool.false_eq_true, if_false, hempty]
    split <;> rfl
  · intro m hm
    unfold capture_input_step
    rw [hover]
    simp only [Bool.false_eq_true, if_false, hm]
  · unfold capture_input_step
    rw [hover]
    simp only [Bool.false_eq_true, if_false]

/-- Witness for C9: with no input resolved, a frame in `XTurn` on the empty
board changes nothing. -/
theorem c9_witness :
    capture_input_step GameState.XTurn Game.default none = (GameState.XTurn, Game.default) :=
  (c9_turn_machine GameState.XTurn Game.default Cell.TopLeft (Or.inl rfl) rfl).2.2.1

/-- Claim C10: each of the 8 `WINNING_ARRANGEMENTS` predicates selects exactly
the 3 cells of its paired Line's `cells()` triple, so the predicate-based win
detector and the `Line::cells()`-based enumeration agree on line membership. -/
theorem c10_arrangements_match_cells :
    ∀ pl ∈ WINNING_ARRANGEMENTS,
      (cellVariants.filter pl.1).Perm pl.2.cellList
      ∧ ∀ c : Cell, pl.1 c = true ↔ c ∈ pl.2.cellList := by
  intro pl hpl
  fin_cases hpl <;> exact ⟨by decide, by decide⟩

/-- Witness for C10: the first arrangement (top-row predicate) selects exactly
the top row's cells. -/
theorem c10_witness :
    (cellVariants.filter (fun c => c.row == Row.Top)).Perm Line.TopRow.cellList
    ∧ ∀ c : Cell, ((fun c : Cell => c.row == Row.Top) c) = true ↔ c ∈ Line.TopRow.cellList :=
  c10_arrangements_match_cells (fun c => c.row == Row.Top, Line.TopRow) (List.Mem.head _)

end TTT
